import Mathlib

/-!
# Verification of the heimdall-rs `disassemble` module

Shallow embedding of `src/common/src/ether/evm/disassemble.rs` (the
`disassemble` entry point: bytecode source resolution, the linear
instruction decode loop, and artifact persistence) together with models
of the external collaborators the module consumes (opcode table, regex
constants, cache, network client, filesystem), which are not part of the
provided sources and are therefore modelled from the specification.

Machine strings are modelled as Lean `String`s; the Rust string
operations used by the source (`contains`, `replace`, `parse::<u8>`,
`replacen("0x", "", 1)`, `chars().chunks(2)`, `join("")`) are given
explicit structural models below so that every definition is executable
and kernel-reducible.
-/

namespace Heimdall

/-! ## Models of the Rust string primitives used by the source -/

/-- Model of Rust `str::contains("PUSH")`: does the character list hold
`['P','U','S','H']` as a contiguous substring? -/
def hasPUSH : List Char → Bool
  | 'P' :: 'U' :: 'S' :: 'H' :: _ => true
  | _ :: rest => hasPUSH rest
  | [] => false

/-- Model of Rust `str::replace("PUSH", "")`: delete every occurrence of
`['P','U','S','H']`, scanning left to right. -/
def stripPUSH : List Char → List Char
  | 'P' :: 'U' :: 'S' :: 'H' :: rest => stripPUSH rest
  | c :: rest => c :: stripPUSH rest
  | [] => []

/-- Decimal digit value of a character, `10` when not a digit. -/
def decDigit (c : Char) : Nat :=
  match c with
  | '0' => 0 | '1' => 1 | '2' => 2 | '3' => 3 | '4' => 4
  | '5' => 5 | '6' => 6 | '7' => 7 | '8' => 8 | '9' => 9
  | _ => 10

/-- Accumulating decimal reader used by `parseU8`. -/
def decValAux (acc : Nat) : List Char → Option Nat
  | [] => some acc
  | c :: rest =>
    if decDigit c < 10 then decValAux (acc * 10 + decDigit c) rest else none

/-- Model of Rust `str::parse::<u8>()`: a non-empty string of decimal
digits whose value fits in `0..=255`, otherwise an error.  (A leading
`+` sign, which Rust also accepts, never occurs in opcode mnemonics and
is not modelled.) -/
def parseU8 (l : List Char) : Option Nat :=
  match l with
  | [] => none
  | _ =>
    match decValAux 0 l with
    | some n => if n ≤ 255 then some n else none
    | none => none

/-- Hexadecimal digit value of a character, `16` when not a hex digit. -/
def hexVal (c : Char) : Nat :=
  match c with
  | '0' => 0 | '1' => 1 | '2' => 2 | '3' => 3 | '4' => 4
  | '5' => 5 | '6' => 6 | '7' => 7 | '8' => 8 | '9' => 9
  | 'a' => 10 | 'b' => 11 | 'c' => 12 | 'd' => 13 | 'e' => 14 | 'f' => 15
  | 'A' => 10 | 'B' => 11 | 'C' => 12 | 'D' => 13 | 'E' => 14 | 'F' => 15
  | _ => 16

/-- Is the character an ASCII hexadecimal digit? -/
def isHexDigit (c : Char) : Bool := hexVal c < 16

/-- Model of Rust `String::replacen("0x", "", 1)` on a character list:
remove the first (leftmost) occurrence of `['0','x']`, if any. -/
def drop0xL : List Char → List Char
  | [] => []
  | [c] => [c]
  | c1 :: c2 :: rest =>
    if c1 = '0' && c2 = 'x' then rest else c1 :: drop0xL (c2 :: rest)

/-- Model of Rust `String::replacen("0x", "", 1)`. -/
def drop0xFirst (s : String) : String := String.mk (drop0xL s.toList)

/-- Does the character list begin with the two characters `0x`? -/
def has0xL : List Char → Bool
  | '0' :: 'x' :: _ => true
  | _ => false

/-- Model of Rust `slice::join("")` / sequential `push_str`:
concatenate a list of strings in order. -/
def joinAll : List String → String
  | [] => ""
  | s :: rest => s ++ joinAll rest

/-- Model of Rust `chars().collect::<Vec<char>>().chunks(2)`: split a
character list into consecutive chunks of two; a trailing odd character
forms a final one-element chunk. -/
def chunkPairs : List Char → List (List Char)
  | [] => []
  | [c] => [[c]]
  | c1 :: c2 :: rest => [c1, c2] :: chunkPairs rest

/-! ## The opcode table (external collaborator) -/

/-- Modelled from the spec: the external Opcode Table
(`crate::ether::evm::opcodes::opcode`, not among the provided sources) —
"pure function: byte value → {mnemonic, …}"; total over the 0–255 byte
space, assigning the standard EVM mnemonics, with push-class mnemonics
`PUSH1`–`PUSH32` at `0x60`–`0x7f` whose numeric suffix encodes the
immediate operand length.  Represented as an association list of the
assigned byte values. -/
def opcodeTable : List (Nat × String) :=
  [(0x00, "STOP"), (0x01, "ADD"), (0x02, "MUL"), (0x03, "SUB"),
   (0x04, "DIV"), (0x05, "SDIV"), (0x06, "MOD"), (0x07, "SMOD"),
   (0x08, "ADDMOD"), (0x09, "MULMOD"), (0x0a, "EXP"), (0x0b, "SIGNEXTEND"),
   (0x10, "LT"), (0x11, "GT"), (0x12, "SLT"), (0x13, "SGT"),
   (0x14, "EQ"), (0x15, "ISZERO"), (0x16, "AND"), (0x17, "OR"),
   (0x18, "XOR"), (0x19, "NOT"), (0x1a, "BYTE"), (0x1b, "SHL"),
   (0x1c, "SHR"), (0x1d, "SAR"),
   (0x20, "SHA3"),
   (0x30, "ADDRESS"), (0x31, "BALANCE"), (0x32, "ORIGIN"), (0x33, "CALLER"),
   (0x34, "CALLVALUE"), (0x35, "CALLDATALOAD"), (0x36, "CALLDATASIZE"),
   (0x37, "CALLDATACOPY"), (0x38, "CODESIZE"), (0x39, "CODECOPY"),
   (0x3a, "GASPRICE"), (0x3b, "EXTCODESIZE"), (0x3c, "EXTCODECOPY"),
   (0x3d, "RETURNDATASIZE"), (0x3e, "RETURNDATACOPY"), (0x3f, "EXTCODEHASH"),
   (0x40, "BLOCKHASH"), (0x41, "COINBASE"), (0x42, "TIMESTAMP"),
   (0x43, "NUMBER"), (0x44, "DIFFICULTY"), (0x45, "GASLIMIT"),
   (0x46, "CHAINID"), (0x47, "SELFBALANCE"), (0x48, "BASEFEE"),
   (0x50, "POP"), (0x51, "MLOAD"), (0x52, "MSTORE"), (0x53, "MSTORE8"),
   (0x54, "SLOAD"), (0x55, "SSTORE"), (0x56, "JUMP"), (0x57, "JUMPI"),
   (0x58, "PC"), (0x59, "MSIZE"), (0x5a, "GAS"), (0x5b, "JUMPDEST"),
   (0x60, "PUSH1"), (0x61, "PUSH2"), (0x62, "PUSH3"), (0x63, "PUSH4"),
   (0x64, "PUSH5"), (0x65, "PUSH6"), (0x66, "PUSH7"), (0x67, "PUSH8"),
   (0x68, "PUSH9"), (0x69, "PUSH10"), (0x6a, "PUSH11"), (0x6b, "PUSH12"),
   (0x6c, "PUSH13"), (0x6d, "PUSH14"), (0x6e, "PUSH15"), (0x6f, "PUSH16"),
   (0x70, "PUSH17"), (0x71, "PUSH18"), (0x72, "PUSH19"), (0x73, "PUSH20"),
   (0x74, "PUSH21"), (0x75, "PUSH22"), (0x76, "PUSH23"), (0x77, "PUSH24"),
   (0x78, "PUSH25"), (0x79, "PUSH26"), (0x7a, "PUSH27"), (0x7b, "PUSH28"),
   (0x7c, "PUSH29"), (0x7d, "PUSH30"), (0x7e, "PUSH31"), (0x7f, "PUSH32"),
   (0x80, "DUP1"), (0x81, "DUP2"), (0x82, "DUP3"), (0x83, "DUP4"),
   (0x84, "DUP5"), (0x85, "DUP6"), (0x86, "DUP7"), (0x87, "DUP8"),
   (0x88, "DUP9"), (0x89, "DUP10"), (0x8a, "DUP11"), (0x8b, "DUP12"),
   (0x8c, "DUP13"), (0x8d, "DUP14"), (0x8e, "DUP15"), (0x8f, "DUP16"),
   (0x90, "SWAP1"), (0x91, "SWAP2"), (0x92, "SWAP3"), (0x93, "SWAP4"),
   (0x94, "SWAP5"), (0x95, "SWAP6"), (0x96, "SWAP7"), (0x97, "SWAP8"),
   (0x98, "SWAP9"), (0x99, "SWAP10"), (0x9a, "SWAP11"), (0x9b, "SWAP12"),
   (0x9c, "SWAP13"), (0x9d, "SWAP14"), (0x9e, "SWAP15"), (0x9f, "SWAP16"),
   (0xa0, "LOG0"), (0xa1, "LOG1"), (0xa2, "LOG2"), (0xa3, "LOG3"),
   (0xa4, "LOG4"),
   (0xf0, "CREATE"), (0xf1, "CALL"), (0xf2, "CALLCODE"), (0xf3, "RETURN"),
   (0xf4, "DELEGATECALL"), (0xf5, "CREATE2"), (0xfa, "STATICCALL"),
   (0xfd, "REVERT"), (0xfe, "INVALID"), (0xff, "SELFDESTRUCT")]

/-- The mnemonic of one byte value: the table entry when assigned, the
placeholder name otherwise (the spec: unknown bytes "still receive a
name — the table is total over the 0–255 byte space").  Inputs outside
0–255 (produced here only by the `byteVal` clamp for malformed
byte-pairs) also receive the placeholder name. -/
def opcodeName (b : Nat) : String := (opcodeTable.lookup b).getD "unofficial"

/-- Numeric value of a two-hex-character byte-pair; any malformed chunk
(wrong length or a non-hex character) is clamped to the out-of-range
value `256`, which the opcode table maps to the placeholder name. -/
def byteValL (l : List Char) : Nat :=
  match l with
  | [c1, c2] =>
    if hexVal c1 < 16 && hexVal c2 < 16 then 16 * hexVal c1 + hexVal c2
    else 256
  | _ => 256

/-- Numeric value of a byte-pair string. -/
def byteVal (s : String) : Nat := byteValL s.toList

/-- Mnemonic looked up for one byte-pair string
(models `opcode(&byte_array[program_counter]).name`). -/
def opcodeOf (s : String) : String := opcodeName (byteVal s)

/-! ## The instruction decode loop (source lines 161–191) -/

/-- One decoded instruction, as emitted by the source's
`format!("{} {} {}\n", program_counter, operation.name, pushed_bytes)`:
`offset` is the value of `program_counter` at the moment the line is
formatted (for push-class instructions the source has already advanced
it past the immediate operand), `name` the mnemonic, and `pushed` the
joined immediate byte-pairs (empty for non-push instructions). -/
structure Instruction where
  offset : Nat
  name : String
  pushed : String
deriving DecidableEq

/-- The decode loop of `disassemble` (source lines 171–191), walking the
byte-pair vector `ba` from position `pc`.  Returns the emitted
instructions plus the final value of `program_counter`; `none` models
the `unwrap()` panic on a push-class mnemonic whose suffix is not a
valid `u8` (unreachable with the opcode table above).  The `fuel`
argument makes the recursion structural; every iteration of the Rust
`while` loop advances `pc` by at least one, so any fuel exceeding
`ba.length - pc` computes the loop exactly (see `decodeLoop_fuel`). -/
def decodeLoop (ba : List String) : Nat → Nat → Option (List Instruction × Nat)
  | 0, pc => some ([], pc)
  | fuel + 1, pc =>
    if h : pc < ba.length then
      let op := opcodeOf (ba.get ⟨pc, h⟩)
      if hasPUSH op.toList then
        match parseU8 (stripPUSH op.toList) with
        | none => none
        | some k =>
          if pc + 1 + k ≤ ba.length then
            match decodeLoop ba fuel (pc + k + 1) with
            | none => none
            | some (rest, fin) =>
              some (⟨pc + k, op, joinAll ((ba.drop (pc + 1)).take k)⟩ :: rest, fin)
          else
            some ([], pc)
      else
        match decodeLoop ba fuel (pc + 1) with
        | none => none
        | some (rest, fin) => some (⟨pc, op, ""⟩ :: rest, fin)
    else
      some ([], pc)

/-- The byte-pair vector built from the resolved bytecode string
(source lines 165–169). -/
def toByteArray (bytecode : String) : List String :=
  (chunkPairs bytecode.toList).map String.mk

/-- Full decode of a resolved bytecode string: chunk into byte-pairs and
run the decode loop from position 0 with adequate fuel. -/
def disassembleBytecode (bytecode : String) : Option (List Instruction × Nat) :=
  decodeLoop (toByteArray bytecode) ((toByteArray bytecode).length + 1) 0

/-- One rendered listing line
(`format!("{} {} {}\n", program_counter, operation.name, pushed_bytes)`). -/
def renderLine (i : Instruction) : String :=
  Nat.repr i.offset ++ " " ++ i.name ++ " " ++ i.pushed ++ "\n"

/-! ## The resolution pipeline (source lines 48–159 and 193–203)

The external collaborators — the regex constants from
`crate::constants`, the `heimdall_cache` key/value store, the ethers
network client, and the filesystem — are not among the provided sources
and are modelled from the specification as explicit data carried by a
`World` value. -/

/-- Modelled from the spec: `ADDRESS_REGEX` (from `crate::constants`,
not among the provided sources) — "matches an address-shaped pattern":
an optional `0x` prefix followed by exactly 40 hexadecimal digits. -/
def matchesAddressL (l : List Char) : Bool :=
  match l with
  | '0' :: 'x' :: rest => rest.all isHexDigit && rest.length == 40
  | _ => l.all isHexDigit && l.length == 40

/-- `ADDRESS_REGEX.is_match` on a string. -/
def matchesAddress (s : String) : Bool := matchesAddressL s.toList

/-- Modelled from the spec: `BYTECODE_REGEX` (from `crate::constants`,
not among the provided sources) — "matches a bytecode-shaped hex
pattern (even-length hex digits, optionally prefixed)": an optional
`0x` prefix followed by an even number of hexadecimal digits. -/
def matchesBytecodeL (l : List Char) : Bool :=
  match l with
  | '0' :: 'x' :: rest => rest.all isHexDigit && rest.length % 2 == 0
  | _ => l.all isHexDigit && l.length % 2 == 0

/-- `BYTECODE_REGEX.is_match` on a string. -/
def matchesBytecode (s : String) : Bool := matchesBytecodeL s.toList

/-- One cache entry: key, cached value, and the optional expiry passed
to `store_cache` (modelled from the spec's collaborator interface
`write(key, value, optional ttl)`). -/
abbrev CacheEntry := String × String × Option Nat

/-- Hexadecimal digit character (lowercase), as rendered by the network
client's byte-to-hex display. -/
def hexDigitChar (n : Nat) : Char :=
  match n with
  | 0 => '0' | 1 => '1' | 2 => '2' | 3 => '3' | 4 => '4'
  | 5 => '5' | 6 => '6' | 7 => '7' | 8 => '8' | 9 => '9'
  | 10 => 'a' | 11 => 'b' | 12 => 'c' | 13 => 'd' | 14 => 'e' | 15 => 'f'
  | _ => '0'

/-- Two lowercase hex digits for one byte. -/
def byteHex (b : Nat) : String :=
  String.mk [hexDigitChar (b % 256 / 16), hexDigitChar (b % 16)]

/-- Modelled from the spec: the display form of the byte string returned
by the network client's `fetch_code` ("`fetch_code(address) -> bytes`"),
as converted by `bytecode_as_bytes.to_string()` — a `0x` prefix followed
by two lowercase hex digits per byte. -/
def bytesToHexStr (bytes : List Nat) : String :=
  "0x" ++ joinAll (bytes.map byteHex)

/-- The CLI arguments consumed by `disassemble` (the `verbose` and
`default` flags only affect logging/prompting and are not modelled). -/
structure DisassemblerArgs where
  target : String
  output : String
  rpc_url : String

/-- The external state an invocation can observe.  `cwd` models
`env::current_dir()` (`none` = failure); `cache` the `heimdall_cache`
store; `files` the readable filesystem (`fs::read_to_string`);
`chainCode` the network client (`none` = connectivity/lookup failure,
`some bytes` = the deployed code at the address, keyed by endpoint and
target); `rpcOk` whether `Provider::try_from` accepts an endpoint; and
`addrOk` whether `target.parse::<Address>()` succeeds. -/
structure World where
  cwd : Option String
  cache : List CacheEntry
  files : List (String × String)
  chainCode : String → String → Option (List Nat)
  rpcOk : String → Bool
  addrOk : String → Bool

/-- The distinct `std::process::exit(1)` sites of the source, plus the
decode-loop `unwrap()` panic (unreachable with the modelled opcode
table). -/
inductive Fatal where
  | currentDirFailure
  | missingRpc
  | providerConnect
  | addressParse
  | fetchFailure
  | invalidFileBytecode
  | fileReadFailure
  | panicked
deriving DecidableEq

/-- The successful result of one invocation: the returned listing, the
resolved output directory, the resolved bytecode handed to the decoder,
and the decoder's emitted instructions and final program counter. -/
structure Res where
  listing : String
  outDir : String
  bytecode : String
  instrs : List Instruction
  finalPC : Nat
deriving DecidableEq

/-- Everything observable about one invocation: its outcome, the cache
left behind, the files written (path, contents) in order, and how many
network fetches were issued. -/
structure RunResult where
  outcome : Except Fatal Res
  cache : List CacheEntry
  writes : List (String × String)
  fetches : Nat

/-- The output-directory base (source lines 54–68): the override when
given, else `<current-working-directory>/output`. -/
def baseDir (args : DisassemblerArgs) (w : World) : Except Fatal String :=
  if args.output = "" then
    match w.cwd with
    | some d => Except.ok (d ++ "/output")
    | none => Except.error Fatal.currentDirFailure
  else
    Except.ok args.output

/-- Result of the address-variant bytecode acquisition: the fetched or
cached bytecode (or the fatal condition), the cache afterwards, and the
number of network fetches issued. -/
structure ResolveOut where
  code : Except Fatal String
  cache : List CacheEntry
  fetches : Nat

/-- The address-variant acquisition block (source lines 85–130): consult
the cache under `contract.<target>`; on a miss require a non-empty RPC
endpoint, build the provider, parse the address, fetch the code, strip
the first `0x` occurrence, and store the result with no explicit
expiry. -/
def resolveAddressCode (args : DisassemblerArgs) (w : World) : ResolveOut :=
  match w.cache.lookup ("contract." ++ args.target) with
  | some (v, _) => ⟨Except.ok v, w.cache, 0⟩
  | none =>
    if args.rpc_url = "" then
      ⟨Except.error Fatal.missingRpc, w.cache, 0⟩
    else if w.rpcOk args.rpc_url = false then
      ⟨Except.error Fatal.providerConnect, w.cache, 0⟩
    else if w.addrOk args.target = false then
      ⟨Except.error Fatal.addressParse, w.cache, 0⟩
    else
      match w.chainCode args.rpc_url args.target with
      | none => ⟨Except.error Fatal.fetchFailure, w.cache, 1⟩
      | some bytes =>
        ⟨Except.ok (drop0xFirst (bytesToHexStr bytes)),
         ("contract." ++ args.target,
           drop0xFirst (bytesToHexStr bytes), none) :: w.cache, 1⟩

/-- The tail of the pipeline shared by all three variants (source lines
161–203): decode the resolved bytecode, render the listing, write
`bytecode.evm` and `disassembled.asm` into the resolved output
directory, and return the listing. -/
def finishRun (dir bytecode : String) (cache : List CacheEntry)
    (fetches : Nat) : RunResult :=
  match disassembleBytecode bytecode with
  | none => ⟨Except.error Fatal.panicked, cache, [], fetches⟩
  | some (instrs, fin) =>
    ⟨Except.ok ⟨joinAll (instrs.map renderLine), dir, bytecode, instrs, fin⟩,
     cache,
     [(dir ++ "/bytecode.evm", bytecode),
      (dir ++ "/disassembled.asm", joinAll (instrs.map renderLine))],
     fetches⟩

/-- The whole `disassemble` entry point (source lines 48–204): derive
the output-directory base, classify the target (address pattern first,
then bytecode pattern, else file path), acquire the bytecode
accordingly, then decode, persist, and return the listing. -/
def disassemble (args : DisassemblerArgs) (w : World) : RunResult :=
  match baseDir args w with
  | Except.error e => ⟨Except.error e, w.cache, [], 0⟩
  | Except.ok dir0 =>
    if matchesAddress args.target then
      match resolveAddressCode args w with
      | ⟨Except.error e, cache', n⟩ => ⟨Except.error e, cache', [], n⟩
      | ⟨Except.ok bc, cache', n⟩ =>
        finishRun (if dir0 ≠ args.output then dir0 ++ "/" ++ args.target else dir0)
          bc cache' n
    else if matchesBytecode args.target then
      finishRun dir0 args.target w.cache 0
    else
      match w.files.lookup args.target with
      | none => ⟨Except.error Fatal.fileReadFailure, w.cache, [], 0⟩
      | some contents =>
        if matchesBytecode contents && contents.length % 2 == 0 then
          finishRun (if dir0 ≠ args.output then dir0 ++ "/local" else dir0)
            (drop0xFirst contents) w.cache 0
        else
          ⟨Except.error Fatal.invalidFileBytecode, w.cache, [], 0⟩

/-! ## Basic facts about the opcode table and byte-pair values -/

/-- Any byte-pair value is at most the clamp value `256`. -/
theorem byteValL_le (l : List Char) : byteValL l ≤ 256 := by
  unfold byteValL
  split
  · split
    · rename_i hc
      simp only [Bool.and_eq_true, decide_eq_true_eq] at hc
      omega
    · exact Nat.le_refl 256
  · exact Nat.le_refl 256

/-- Any byte-pair value is at most the clamp value `256`. -/
theorem byteVal_le (s : String) : byteVal s ≤ 256 := byteValL_le s.toList

set_option maxRecDepth 100000 in
set_option maxHeartbeats 2000000 in
/-- Over the whole (clamped) byte space, a mnemonic containing `PUSH`
is exactly one of `PUSH1`–`PUSH32`, and the source's
`name.replace("PUSH", "").parse::<u8>()` then succeeds with the
operand length `b - 0x5f`. -/
theorem opcodeName_pushTotal : ∀ b : Nat, b ≤ 256 →
    (hasPUSH (opcodeName b).toList = false ∨
     parseU8 (stripPUSH (opcodeName b).toList) = some (b - 95)) := by decide

/-- The looked-up mnemonic of a byte-pair: when it contains `PUSH`, the
operand-length parse succeeds. -/
theorem opcodeOf_pushTotal (s : String) (hp : hasPUSH (opcodeOf s).toList = true) :
    parseU8 (stripPUSH (opcodeOf s).toList) = some (byteVal s - 95) := by
  rcases opcodeName_pushTotal (byteVal s) (byteVal_le s) with hfalse | hparse
  · rw [show opcodeOf s = opcodeName (byteVal s) from rfl] at hp
    rw [hp] at hfalse
    cases hfalse
  · exact hparse

/-! ## Step lemmas for the decode loop -/

/-- The loop exits as soon as the position leaves the byte array. -/
theorem decodeLoop_stop (ba : List String) (fuel pc : Nat)
    (h : ¬ pc < ba.length) :
    decodeLoop ba (fuel + 1) pc = some ([], pc) := by
  simp [decodeLoop, h]

/-- A non-push byte emits one instruction with an empty immediate and
the loop continues at `pc + 1`. -/
theorem decodeLoop_nonpush (ba : List String) (fuel pc : Nat)
    (h : pc < ba.length)
    (hnp : hasPUSH (opcodeOf (ba.get ⟨pc, h⟩)).toList = false) :
    decodeLoop ba (fuel + 1) pc =
      (decodeLoop ba fuel (pc + 1)).map
        (fun r => (⟨pc, opcodeOf (ba.get ⟨pc, h⟩), ""⟩ :: r.1, r.2)) := by
  simp only [decodeLoop]
  rw [dif_pos h]
  simp only [hnp, Bool.false_eq_true, if_false]
  cases hrec : decodeLoop ba fuel (pc + 1) with
  | none => rfl
  | some r => rcases r with ⟨rest, fin⟩; rfl

/-- A push-class byte with enough remaining byte-pairs emits one
instruction whose recorded offset is `pc + k` (the program counter
after the source has advanced it past the immediate), and the loop
continues at `pc + k + 1`. -/
theorem decodeLoop_push (ba : List String) (fuel pc k : Nat)
    (h : pc < ba.length)
    (hp : hasPUSH (opcodeOf (ba.get ⟨pc, h⟩)).toList = true)
    (hk : parseU8 (stripPUSH (opcodeOf (ba.get ⟨pc, h⟩)).toList) = some k)
    (hsl : pc + 1 + k ≤ ba.length) :
    decodeLoop ba (fuel + 1) pc =
      (decodeLoop ba fuel (pc + k + 1)).map
        (fun r => (⟨pc + k, opcodeOf (ba.get ⟨pc, h⟩),
          joinAll ((ba.drop (pc + 1)).take k)⟩ :: r.1, r.2)) := by
  simp only [decodeLoop]
  rw [dif_pos h]
  simp only [hp, if_true, hk, hsl, if_pos]
  cases hrec : decodeLoop ba fuel (pc + k + 1) with
  | none => rfl
  | some r => rcases r with ⟨rest, fin⟩; rfl

/-- A push-class byte whose declared operand length exceeds the
remaining byte-pairs halts the loop at once: nothing is emitted for it,
no error is raised, and the final position is the current one. -/
theorem decodeLoop_push_halt (ba : List String) (fuel pc k : Nat)
    (h : pc < ba.length)
    (hp : hasPUSH (opcodeOf (ba.get ⟨pc, h⟩)).toList = true)
    (hk : parseU8 (stripPUSH (opcodeOf (ba.get ⟨pc, h⟩)).toList) = some k)
    (hsl : ba.length < pc + 1 + k) :
    decodeLoop ba (fuel + 1) pc = some ([], pc) := by
  simp only [decodeLoop]
  rw [dif_pos h]
  simp only [hp, if_true, hk]
  rw [if_neg (by omega)]

/-- Any two adequate fuels compute the same loop result: each iteration
advances the position by at least one, so fuel exceeding
`ba.length - pc` is never exhausted. -/
theorem decodeLoop_fuel (ba : List String) :
    ∀ fuel fuel' pc, ba.length - pc < fuel → ba.length - pc < fuel' →
      decodeLoop ba fuel pc = decodeLoop ba fuel' pc := by
  intro fuel
  induction fuel with
  | zero => intro fuel' pc hf _; omega
  | succ fuel ih =>
    intro fuel' pc hf hf'
    cases fuel' with
    | zero => omega
    | succ fuel' =>
      by_cases h : pc < ba.length
      · by_cases hp : hasPUSH (opcodeOf (ba.get ⟨pc, h⟩)).toList = true
        · have hk := opcodeOf_pushTotal _ hp
          by_cases hsl : pc + 1 + (byteVal (ba.get ⟨pc, h⟩) - 95) ≤ ba.length
          · rw [decodeLoop_push ba fuel pc _ h hp hk hsl,
              decodeLoop_push ba fuel' pc _ h hp hk hsl,
              ih fuel' (pc + (byteVal (ba.get ⟨pc, h⟩) - 95) + 1) (by omega) (by omega)]
          · rw [decodeLoop_push_halt ba fuel pc _ h hp hk (by omega),
              decodeLoop_push_halt ba fuel' pc _ h hp hk (by omega)]
        · rw [decodeLoop_nonpush ba fuel pc h (by simpa using hp),
            decodeLoop_nonpush ba fuel' pc h (by simpa using hp),
            ih fuel' (pc + 1) (by omega) (by omega)]
      · rw [decodeLoop_stop ba fuel pc h, decodeLoop_stop ba fuel' pc h]

/-! ## Length bookkeeping for chunking and joining -/

/-- Concatenating rendered strings adds their lengths. -/
theorem joinAll_length : ∀ l : List String,
    (joinAll l).length = (l.map String.length).sum := by
  intro l
  induction l with
  | nil => rfl
  | cons s rest ih => simp [joinAll, String.length_append, ih]

/-- The number of byte-pair chunks of a character list. -/
theorem chunkPairs_length : ∀ l : List Char,
    (chunkPairs l).length = (l.length + 1) / 2 := by
  intro l
  induction l using chunkPairs.induct with
  | case1 => simp [chunkPairs]
  | case2 c => simp [chunkPairs]
  | case3 c1 c2 rest ih => simp [chunkPairs, ih]; omega

/-- Chunking an even-length character list yields only two-character
chunks. -/
theorem chunkPairs_mem_length : ∀ l : List Char, l.length % 2 = 0 →
    ∀ c ∈ chunkPairs l, c.length = 2 := by
  intro l
  induction l using chunkPairs.induct with
  | case1 => intro _ c hc; cases hc
  | case2 c => intro h; simp at h
  | case3 c1 c2 rest ih =>
    intro h c hc
    simp only [chunkPairs, List.mem_cons] at hc
    rcases hc with hc | hc
    · subst hc; rfl
    · exact ih (by simp at h ⊢; omega) c hc

/-- The byte-pair vector of an even-length string has `length / 2`
entries. -/
theorem toByteArray_length (s : String) :
    (toByteArray s).length = (s.length + 1) / 2 := by
  show ((chunkPairs s.toList).map String.mk).length = (s.length + 1) / 2
  rw [List.length_map, chunkPairs_length]
  rfl

/-- Every byte-pair of an even-length string has two characters. -/
theorem toByteArray_mem_length (s : String) (he : s.length % 2 = 0) :
    ∀ p ∈ toByteArray s, p.length = 2 := by
  intro p hp
  rcases List.mem_map.mp hp with ⟨c, hc, rfl⟩
  exact chunkPairs_mem_length s.toList he c hc

/-- Summing per-string lengths that are all `2`. -/
theorem sum_lengths_two (l : List String) (h : ∀ s ∈ l, s.length = 2) :
    (l.map String.length).sum = 2 * l.length := by
  induction l with
  | nil => rfl
  | cons s rest ih =>
    simp only [List.map_cons, List.sum_cons, List.length_cons]
    rw [h s (List.mem_cons_self s rest), ih (fun t ht => h t (List.mem_cons_of_mem s ht))]
    ring

/-! ## The decode-loop invariant -/

/-- Main invariant of the decode loop, for every fuel and start
position: the loop never panics; the final position never decreases,
never exceeds the array bound when started inside it, and equals the
start position plus the sum of per-instruction advances
(`1 + immediate length`, provided every byte-pair has two characters);
every emitted offset is at least the start position; and the emitted
offsets are strictly increasing. -/
theorem decodeLoop_spec (ba : List String) :
    ∀ fuel pc, ∃ instrs fin,
      decodeLoop ba fuel pc = some (instrs, fin) ∧
      pc ≤ fin ∧
      (pc ≤ ba.length → fin ≤ ba.length) ∧
      ((∀ s ∈ ba, s.length = 2) →
        fin = pc + (instrs.map (fun i => 1 + i.pushed.length / 2)).sum) ∧
      (∀ i ∈ instrs, pc ≤ i.offset) ∧
      (instrs.map Instruction.offset).Pairwise (· < ·) := by
  intro fuel
  induction fuel with
  | zero =>
    intro pc
    exact ⟨[], pc, rfl, Nat.le_refl _, fun h => h, fun _ => by simp, by simp, by simp⟩
  | succ fuel ih =>
    intro pc
    by_cases h : pc < ba.length
    · by_cases hp : hasPUSH (opcodeOf (ba.get ⟨pc, h⟩)).toList = true
      · have hk := opcodeOf_pushTotal _ hp
        by_cases hsl : pc + 1 + (byteVal (ba.get ⟨pc, h⟩) - 95) ≤ ba.length
        · obtain ⟨rest, fin, hrec, hple, hble, hsum, hoff, hpair⟩ :=
            ih (pc + (byteVal (ba.get ⟨pc, h⟩) - 95) + 1)
          refine ⟨⟨pc + (byteVal (ba.get ⟨pc, h⟩) - 95), opcodeOf (ba.get ⟨pc, h⟩),
              joinAll ((ba.drop (pc + 1)).take (byteVal (ba.get ⟨pc, h⟩) - 95))⟩ :: rest,
            fin, ?_, by omega, fun _ => hble (by omega), ?_, ?_, ?_⟩
          · rw [decodeLoop_push ba fuel pc _ h hp hk hsl, hrec]; rfl
          · intro h2
            have hjoin :
                (joinAll ((ba.drop (pc + 1)).take (byteVal (ba.get ⟨pc, h⟩) - 95))).length =
                  2 * (byteVal (ba.get ⟨pc, h⟩) - 95) := by
              rw [joinAll_length, sum_lengths_two _ (fun s hs =>
                h2 s (List.mem_of_mem_drop (List.mem_of_mem_take hs)))]
              rw [List.length_take, List.length_drop]
              omega
            have hrest := hsum h2
            simp only [List.map_cons, List.sum_cons]
            rw [hjoin]
            omega
          · intro i hi
            rcases List.mem_cons.mp hi with rfl | hi
            · simp
            · exact le_trans (by omega) (hoff i hi)
          · simp only [List.map_cons, List.pairwise_cons]
            refine ⟨?_, hpair⟩
            intro b hb
            rcases List.mem_map.mp hb with ⟨i, hi, rfl⟩
            have := hoff i hi
            exact Nat.lt_of_lt_of_le (Nat.lt_succ_self _) this
        · exact ⟨[], pc, decodeLoop_push_halt ba fuel pc _ h hp hk (by omega),
            Nat.le_refl _, fun hh => hh, fun _ => by simp, by simp, by simp⟩
      · obtain ⟨rest, fin, hrec, hple, hble, hsum, hoff, hpair⟩ := ih (pc + 1)
        refine ⟨⟨pc, opcodeOf (ba.get ⟨pc, h⟩), ""⟩ :: rest, fin, ?_, by omega,
          fun _ => hble (by omega), ?_, ?_, ?_⟩
        · rw [decodeLoop_nonpush ba fuel pc h (by simpa using hp), hrec]; rfl
        · intro h2
          have hrest := hsum h2
          simp only [List.map_cons, List.sum_cons]
          have : ("" : String).length = 0 := rfl
          omega
        · intro i hi
          rcases List.mem_cons.mp hi with rfl | hi
          · simp
          · exact le_trans (by omega) (hoff i hi)
        · simp only [List.map_cons, List.pairwise_cons]
          refine ⟨?_, hpair⟩
          intro b hb
          rcases List.mem_map.mp hb with ⟨i, hi, rfl⟩
          have := hoff i hi
          exact Nat.lt_of_lt_of_le (Nat.lt_succ_self _) this
    · exact ⟨[], pc, decodeLoop_stop ba fuel pc h, Nat.le_refl _, fun hh => hh,
        fun _ => by simp, by simp, by simp⟩

/-- The full decode of any bytecode string succeeds (never panics). -/
theorem disassembleBytecode_total (s : String) :
    ∃ instrs fin, disassembleBytecode s = some (instrs, fin) := by
  obtain ⟨instrs, fin, hrun, -⟩ :=
    decodeLoop_spec (toByteArray s) ((toByteArray s).length + 1) 0
  exact ⟨instrs, fin, hrun⟩

/-! ## Claim C1 -/

set_option maxRecDepth 10000 in
/-- **C1** (code bug, evaluation at the failing input): the claim says
the recorded offset of every emitted instruction is the byte index of
the opcode byte itself, so decoding `"6001600201"` should list offsets
0, 2, 4.  The code instead advances `program_counter` past a push
immediate *before* formatting the line, so the three emitted
instructions carry offsets 1, 3, 4 — a push-class offset points at the
last immediate byte, not the opcode byte — and the claimed offsets
0, 2, 4 are not produced. -/
theorem claim1_offset_divergence :
    disassembleBytecode "6001600201" =
      some ([⟨1, "PUSH1", "01"⟩, ⟨3, "PUSH1", "02"⟩, ⟨4, "ADD", ""⟩], 5) ∧
    (disassembleBytecode "6001600201").map (fun p => p.1.map Instruction.offset) ≠
      some [0, 2, 4] := by
  exact ⟨by decide, by decide⟩

/-! ## Claim C2 -/

/-- **C2** (confirmed): whenever the decode loop sits on a byte-pair
whose mnemonic is push-class and whose declared operand length `k`
exceeds the remaining byte-pairs, the loop terminates immediately —
no instruction is emitted for that opcode, no error is raised (the
result is still `some`), and the final position is the current one,
which is strictly less than the input length; concretely, input
`"60"` decodes to zero instructions with final position 0. -/
theorem claim2_truncation_halts :
    (∀ (ba : List String) (fuel pc k : Nat) (h : pc < ba.length),
       hasPUSH (opcodeOf (ba.get ⟨pc, h⟩)).toList = true →
       parseU8 (stripPUSH (opcodeOf (ba.get ⟨pc, h⟩)).toList) = some k →
       ba.length < pc + 1 + k →
       decodeLoop ba (fuel + 1) pc = some ([], pc) ∧ pc < ba.length) ∧
    disassembleBytecode "60" = some ([], 0) := by
  refine ⟨fun ba fuel pc k h hp hk hsl =>
    ⟨decodeLoop_push_halt ba fuel pc k h hp hk hsl, h⟩, by decide⟩

/-- Witness for C2: the general statement applied at the concrete
truncated byte array `["60"]` (a `PUSH1` with no operand byte). -/
theorem claim2_truncation_halts_witness :
    decodeLoop ["60"] 1 0 = some ([], 0) ∧ 0 < (["60"] : List String).length :=
  claim2_truncation_halts.1 ["60"] 0 0 1 (by decide) (by decide) (by decide)
    (by decide)

/-! ## Claim C3 -/

/-- **C3** (confirmed): for every valid even-length hex string, the
decode succeeds, the final reported position is at most `len/2`
byte-pairs, the emitted offsets are strictly increasing, and the final
position equals the sum over emitted instructions of
`1 + immediate length`. -/
theorem claim3_decode_invariants (S : String)
    (hhex : S.toList.all isHexDigit = true) (heven : S.length % 2 = 0) :
    ∃ instrs fin,
      disassembleBytecode S = some (instrs, fin) ∧
      fin ≤ S.length / 2 ∧
      (instrs.map Instruction.offset).Pairwise (· < ·) ∧
      fin = (instrs.map (fun i => 1 + i.pushed.length / 2)).sum := by
  obtain ⟨instrs, fin, hrun, hple, hble, hsum, hoff, hpair⟩ :=
    decodeLoop_spec (toByteArray S) ((toByteArray S).length + 1) 0
  refine ⟨instrs, fin, hrun, ?_, hpair, ?_⟩
  · have h1 := hble (Nat.zero_le _)
    have h2 := toByteArray_length S
    omega
  · have := hsum (toByteArray_mem_length S heven)
    omega

set_option maxRecDepth 10000 in
/-- Witness for C3 at the concrete valid hex input `"6001600201"`. -/
theorem claim3_decode_invariants_witness :
    ∃ instrs fin,
      disassembleBytecode "6001600201" = some (instrs, fin) ∧
      fin ≤ ("6001600201" : String).length / 2 ∧
      (instrs.map Instruction.offset).Pairwise (· < ·) ∧
      fin = (instrs.map (fun i => 1 + i.pushed.length / 2)).sum :=
  claim3_decode_invariants "6001600201" (by decide) (by decide)

/-! ## Claim C4 -/

/-- **C4** (confirmed): at every byte-pair whose looked-up mnemonic is
not push-class, the loop emits exactly one instruction with an empty
immediate field and advances the position by exactly one. -/
theorem claim4_nonpush_step (ba : List String) (fuel pc : Nat)
    (h : pc < ba.length)
    (hnp : hasPUSH (opcodeOf (ba.get ⟨pc, h⟩)).toList = false) :
    decodeLoop ba (fuel + 1) pc =
      (decodeLoop ba fuel (pc + 1)).map
        (fun r => (⟨pc, opcodeOf (ba.get ⟨pc, h⟩), ""⟩ :: r.1, r.2)) :=
  decodeLoop_nonpush ba fuel pc h hnp

set_option maxRecDepth 10000 in
/-- Witness for C4 at the concrete non-push byte `"01"` (`ADD`): one
instruction, empty immediate, final position 1. -/
theorem claim4_nonpush_step_witness :
    decodeLoop ["01"] 2 0 = some ([⟨0, "ADD", ""⟩], 1) :=
  Eq.trans (claim4_nonpush_step ["01"] 1 0 (by decide) (by decide)) (by decide)

/-! ## Facts about the pipeline tail and the resolver branches -/

/-- The pipeline tail never fails (the decode loop is total): it always
returns the listing of the decoded instructions and writes exactly the
two artifact files into the given directory, leaving cache and fetch
count untouched. -/
theorem finishRun_ok (dir bc : String) (cache : List CacheEntry) (n : Nat) :
    ∃ res,
      finishRun dir bc cache n =
        ⟨Except.ok res, cache,
         [(dir ++ "/bytecode.evm", bc), (dir ++ "/disassembled.asm", res.listing)],
         n⟩ ∧
      res.bytecode = bc ∧ res.outDir = dir ∧
      disassembleBytecode bc = some (res.instrs, res.finalPC) ∧
      res.listing = joinAll (res.instrs.map renderLine) := by
  obtain ⟨instrs, fin, hrun⟩ := disassembleBytecode_total bc
  refine ⟨⟨joinAll (instrs.map renderLine), dir, bc, instrs, fin⟩, ?_, rfl, rfl, hrun, rfl⟩
  unfold finishRun
  rw [hrun]

/-- Complete case analysis of the output-directory base. -/
theorem baseDir_cases (args : DisassemblerArgs) (w : World) :
    (args.output = "" ∧
      ((∃ d, w.cwd = some d ∧ baseDir args w = Except.ok (d ++ "/output")) ∨
       (w.cwd = none ∧ baseDir args w = Except.error Fatal.currentDirFailure))) ∨
    (args.output ≠ "" ∧ baseDir args w = Except.ok args.output) := by
  unfold baseDir
  by_cases ho : args.output = ""
  · left
    refine ⟨ho, ?_⟩
    rw [if_pos ho]
    cases hc : w.cwd with
    | some d => exact Or.inl ⟨d, rfl, rfl⟩
    | none => exact Or.inr ⟨rfl, rfl⟩
  · right
    exact ⟨ho, by rw [if_neg ho]⟩

/-- A base directory derived from the working directory is never the
empty override string. -/
theorem cwdDir_ne_empty (d : String) : d ++ "/output" ≠ "" := by
  intro h
  have h1 := congrArg String.length h
  rw [String.length_append] at h1
  have h2 : ("/output" : String).length = 7 := rfl
  have h3 : ("" : String).length = 0 := rfl
  omega

/-- Complete case analysis of the address-variant acquisition block:
cache hit (returned verbatim, no fetch), missing endpoint, provider
failure, address-parse failure, fetch failure, or a successful fetch
that strips the first `0x` and stores the result with no explicit
expiry. -/
theorem resolveAddressCode_cases (args : DisassemblerArgs) (w : World) :
    (∃ v ttl, w.cache.lookup ("contract." ++ args.target) = some (v, ttl) ∧
       resolveAddressCode args w = ⟨Except.ok v, w.cache, 0⟩) ∨
    (w.cache.lookup ("contract." ++ args.target) = none ∧
      ((args.rpc_url = "" ∧
         resolveAddressCode args w = ⟨Except.error Fatal.missingRpc, w.cache, 0⟩) ∨
       (args.rpc_url ≠ "" ∧ w.rpcOk args.rpc_url = false ∧
         resolveAddressCode args w = ⟨Except.error Fatal.providerConnect, w.cache, 0⟩) ∨
       (args.rpc_url ≠ "" ∧ w.rpcOk args.rpc_url = true ∧ w.addrOk args.target = false ∧
         resolveAddressCode args w = ⟨Except.error Fatal.addressParse, w.cache, 0⟩) ∨
       (args.rpc_url ≠ "" ∧ w.rpcOk args.rpc_url = true ∧ w.addrOk args.target = true ∧
         ((w.chainCode args.rpc_url args.target = none ∧
            resolveAddressCode args w = ⟨Except.error Fatal.fetchFailure, w.cache, 1⟩) ∨
          (∃ bytes, w.chainCode args.rpc_url args.target = some bytes ∧
            resolveAddressCode args w =
              ⟨Except.ok (drop0xFirst (bytesToHexStr bytes)),
               ("contract." ++ args.target,
                 drop0xFirst (bytesToHexStr bytes), none) :: w.cache, 1⟩))))) := by
  unfold resolveAddressCode
  cases hl : w.cache.lookup ("contract." ++ args.target) with
  | some p => exact Or.inl ⟨p.1, p.2, rfl, rfl⟩
  | none =>
    refine Or.inr ⟨rfl, ?_⟩
    by_cases hrpc : args.rpc_url = ""
    · exact Or.inl ⟨hrpc, by rw [if_pos hrpc]⟩
    · rw [if_neg hrpc]
      by_cases hok : w.rpcOk args.rpc_url = false

      · exact Or.inr (Or.inl ⟨hrpc, hok, by rw [if_pos hok]⟩)
      · rw [if_neg hok]
        have hok' : w.rpcOk args.rpc_url = true := by
          cases h : w.rpcOk args.rpc_url
          · exact absurd h hok
          · rfl
        by_cases haddr : w.addrOk args.target = false
        · exact Or.inr (Or.inr (Or.inl ⟨hrpc, hok', haddr, by rw [if_pos haddr]⟩))
        · rw [if_neg haddr]
          have haddr' : w.addrOk args.target = true := by
            cases h : w.addrOk args.target
            · exact absurd h haddr
            · rfl
          refine Or.inr (Or.inr (Or.inr ⟨hrpc, hok', haddr', ?_⟩))
          cases hcc : w.chainCode args.rpc_url args.target with
          | none => exact Or.inl ⟨rfl, rfl⟩
          | some bytes => exact Or.inr ⟨bytes, rfl, rfl⟩

/-- A successful acquisition leaves the bytecode retrievable from the
resulting cache under `contract.<target>`. -/
theorem resolveAddressCode_ok_lookup (args : DisassemblerArgs) (w : World)
    (bc : String) (h : (resolveAddressCode args w).code = Except.ok bc) :
    ∃ ttl, ((resolveAddressCode args w).cache).lookup ("contract." ++ args.target) =
      some (bc, ttl) := by
  rcases resolveAddressCode_cases args w with
    ⟨v, ttl, hl, heq⟩ | ⟨hl, hcase⟩
  · rw [heq] at h ⊢
    simp only [Except.ok.injEq] at h
    exact ⟨ttl, by rw [hl, h]⟩
  · rcases hcase with ⟨_, heq⟩ | ⟨_, _, heq⟩ | ⟨_, _, _, heq⟩ |
      ⟨_, _, _, ⟨_, heq⟩ | ⟨bytes, hcc, heq⟩⟩
    · rw [heq] at h; cases h
    · rw [heq] at h; cases h
    · rw [heq] at h; cases h
    · rw [heq] at h; cases h
    · rw [heq] at h ⊢
      simp only [Except.ok.injEq] at h
      refine ⟨none, ?_⟩
      simp [List.lookup, h]

/-- A successful acquisition issues at most one fetch. -/
theorem resolveAddressCode_fetches_le (args : DisassemblerArgs) (w : World) :
    (resolveAddressCode args w).fetches ≤ 1 := by
  rcases resolveAddressCode_cases args w with
    ⟨v, ttl, hl, heq⟩ | ⟨hl, hcase⟩
  · rw [heq]; exact Nat.zero_le 1
  · rcases hcase with ⟨_, heq⟩ | ⟨_, _, heq⟩ | ⟨_, _, _, heq⟩ |
      ⟨_, _, _, ⟨_, heq⟩ | ⟨bytes, hcc, heq⟩⟩ <;> rw [heq] <;>
      first
      | exact Nat.zero_le 1
      | exact Nat.le_refl 1

/-- Unfolding `disassemble` in the address branch. -/
theorem disassemble_addr (args : DisassemblerArgs) (w : World) (dir0 : String)
    (hdir : baseDir args w = Except.ok dir0)
    (haddr : matchesAddress args.target = true) :
    disassemble args w =
      (match resolveAddressCode args w with
       | ⟨Except.error e, cache', n⟩ => ⟨Except.error e, cache', [], n⟩
       | ⟨Except.ok bc, cache', n⟩ =>
         finishRun (if dir0 ≠ args.output then dir0 ++ "/" ++ args.target else dir0)
           bc cache' n) := by
  unfold disassemble
  rw [hdir]
  simp only [haddr, if_true]

/-- Unfolding `disassemble` in the literal-bytecode branch. -/
theorem disassemble_lit (args : DisassemblerArgs) (w : World) (dir0 : String)
    (hdir : baseDir args w = Except.ok dir0)
    (haddr : matchesAddress args.target = false)
    (hbc : matchesBytecode args.target = true) :
    disassemble args w = finishRun dir0 args.target w.cache 0 := by
  unfold disassemble
  rw [hdir]
  simp only [haddr, Bool.false_eq_true, if_false, hbc, if_true]

/-- Unfolding `disassemble` in the file branch. -/
theorem disassemble_file (args : DisassemblerArgs) (w : World) (dir0 : String)
    (hdir : baseDir args w = Except.ok dir0)
    (haddr : matchesAddress args.target = false)
    (hbc : matchesBytecode args.target = false) :
    disassemble args w =
      (match w.files.lookup args.target with
       | none => ⟨Except.error Fatal.fileReadFailure, w.cache, [], 0⟩
       | some contents =>
         if matchesBytecode contents && contents.length % 2 == 0 then
           finishRun (if dir0 ≠ args.output then dir0 ++ "/local" else dir0)
             (drop0xFirst contents) w.cache 0
         else
           ⟨Except.error Fatal.invalidFileBytecode, w.cache, [], 0⟩) := by
  unfold disassemble
  rw [hdir]
  simp only [haddr, hbc, Bool.false_eq_true, if_false]

/-- Unfolding `disassemble` when the working directory is unavailable. -/
theorem disassemble_nodir (args : DisassemblerArgs) (w : World)
    (hdir : baseDir args w = Except.error Fatal.currentDirFailure) :
    disassemble args w = ⟨Except.error Fatal.currentDirFailure, w.cache, [], 0⟩ := by
  unfold disassemble
  rw [hdir]

/-- Unfolding `disassemble` in the file branch when the file reads
successfully and passes the bytecode-shape check. -/
theorem disassemble_file_ok (args : DisassemblerArgs) (w : World) (dir0 : String)
    (contents : String) (hdir : baseDir args w = Except.ok dir0)
    (haddr : matchesAddress args.target = false)
    (hbc : matchesBytecode args.target = false)
    (hfl : w.files.lookup args.target = some contents)
    (hcond : (matchesBytecode contents && contents.length % 2 == 0) = true) :
    disassemble args w =
      finishRun (if dir0 ≠ args.output then dir0 ++ "/local" else dir0)
        (drop0xFirst contents) w.cache 0 := by
  have hd := disassemble_file args w dir0 hdir haddr hbc
  rw [hd, hfl]
  exact if_pos hcond

/-- Unfolding `disassemble` in the file branch when the contents fail
the bytecode-shape check. -/
theorem disassemble_file_bad (args : DisassemblerArgs) (w : World) (dir0 : String)
    (contents : String) (hdir : baseDir args w = Except.ok dir0)
    (haddr : matchesAddress args.target = false)
    (hbc : matchesBytecode args.target = false)
    (hfl : w.files.lookup args.target = some contents)
    (hcond : ¬ (matchesBytecode contents && contents.length % 2 == 0) = true) :
    disassemble args w = ⟨Except.error Fatal.invalidFileBytecode, w.cache, [], 0⟩ := by
  have hd := disassemble_file args w dir0 hdir haddr hbc
  rw [hd, hfl]
  exact if_neg hcond

/-- Inversion of a successful invocation: the decode/listing/artifact
shape of the result, together with a complete classification of which
variant produced it and what it did to cache and fetch count. -/
theorem disassemble_ok_inv (args : DisassemblerArgs) (w : World) (res : Res)
    (dir0 : String) (hb : baseDir args w = Except.ok dir0)
    (h : (disassemble args w).outcome = Except.ok res) :
    disassembleBytecode res.bytecode = some (res.instrs, res.finalPC) ∧
    res.listing = joinAll (res.instrs.map renderLine) ∧
    (disassemble args w).writes =
      [(res.outDir ++ "/bytecode.evm", res.bytecode),
       (res.outDir ++ "/disassembled.asm", res.listing)] ∧
    ((matchesAddress args.target = true ∧
        res.outDir = (if dir0 ≠ args.output then dir0 ++ "/" ++ args.target else dir0) ∧
        (resolveAddressCode args w).code = Except.ok res.bytecode ∧
        (disassemble args w).cache = (resolveAddressCode args w).cache ∧
        (disassemble args w).fetches = (resolveAddressCode args w).fetches) ∨
     (matchesAddress args.target = false ∧ matchesBytecode args.target = true ∧
        res.outDir = dir0 ∧ res.bytecode = args.target ∧
        (disassemble args w).cache = w.cache ∧ (disassemble args w).fetches = 0) ∨
     (matchesAddress args.target = false ∧ matchesBytecode args.target = false ∧
        res.outDir = (if dir0 ≠ args.output then dir0 ++ "/local" else dir0) ∧
        (∃ contents, w.files.lookup args.target = some contents ∧
           matchesBytecode contents = true ∧ contents.length % 2 = 0 ∧
           res.bytecode = drop0xFirst contents) ∧
        (disassemble args w).cache = w.cache ∧ (disassemble args w).fetches = 0)) := by
  by_cases haddr : matchesAddress args.target = true
  · -- address branch
    have hd := disassemble_addr args w dir0 hb haddr
    cases hcode : resolveAddressCode args w with
    | mk code cache' n =>
      cases code with
      | error e =>
        rw [hd, hcode] at h
        exact Except.noConfusion h
      | ok bc =>
        obtain ⟨res', hfin, hbc', hdir', hdec, hlist⟩ :=
          finishRun_ok (if dir0 ≠ args.output then dir0 ++ "/" ++ args.target else dir0)
            bc cache' n
        have hda : disassemble args w =
            ⟨Except.ok res', cache',
             [((if dir0 ≠ args.output then dir0 ++ "/" ++ args.target else dir0) ++
                 "/bytecode.evm", bc),
              ((if dir0 ≠ args.output then dir0 ++ "/" ++ args.target else dir0) ++
                 "/disassembled.asm", res'.listing)], n⟩ := by
          rw [hd, hcode]
          exact hfin
        have hres : res = res' := by
          rw [hda] at h
          exact (Except.ok.inj h).symm
        subst hres
        refine ⟨?_, hlist, ?_, Or.inl ⟨haddr, hdir', ?_, ?_, ?_⟩⟩
        · rw [hbc']; exact hdec
        · rw [hda, hdir', hbc']
        · rw [hbc']
        · rw [hda]
        · rw [hda]
  · -- not address-shaped
    have haddr' : matchesAddress args.target = false := by
      cases hm : matchesAddress args.target
      · rfl
      · exact absurd hm haddr
    by_cases hlit : matchesBytecode args.target = true
    · -- literal branch
      have hd := disassemble_lit args w dir0 hb haddr' hlit
      obtain ⟨res', hfin, hbc', hdir', hdec, hlist⟩ := finishRun_ok dir0 args.target w.cache 0
      have hda : disassemble args w =
          ⟨Except.ok res', w.cache,
           [(dir0 ++ "/bytecode.evm", args.target),
            (dir0 ++ "/disassembled.asm", res'.listing)], 0⟩ := by
        rw [hd]
        exact hfin
      have hres : res = res' := by
        rw [hda] at h
        exact (Except.ok.inj h).symm
      subst hres
      refine ⟨?_, hlist, ?_, Or.inr (Or.inl ⟨haddr', hlit, hdir', hbc', ?_, ?_⟩)⟩
      · rw [hbc']; exact hdec
      · rw [hda, hdir', hbc']
      · rw [hda]
      · rw [hda]
    · -- file branch
      have hlit' : matchesBytecode args.target = false := by
        cases hm : matchesBytecode args.target
        · rfl
        · exact absurd hm hlit
      have hd := disassemble_file args w dir0 hb haddr' hlit'
      cases hfl : w.files.lookup args.target with
      | none =>
        rw [hd, hfl] at h
        exact Except.noConfusion h
      | some contents =>
        by_cases hcond : (matchesBytecode contents && contents.length % 2 == 0) = true
        · obtain ⟨res', hfin, hbc', hdir', hdec, hlist⟩ :=
            finishRun_ok (if dir0 ≠ args.output then dir0 ++ "/local" else dir0)
              (drop0xFirst contents) w.cache 0
          have hda : disassemble args w =
              ⟨Except.ok res', w.cache,
               [((if dir0 ≠ args.output then dir0 ++ "/local" else dir0) ++
                   "/bytecode.evm", drop0xFirst contents),
                ((if dir0 ≠ args.output then dir0 ++ "/local" else dir0) ++
                   "/disassembled.asm", res'.listing)], 0⟩ := by
            rw [disassemble_file_ok args w dir0 contents hb haddr' hlit' hfl hcond]
            exact hfin
          have hres : res = res' := by
            rw [hda] at h
            exact (Except.ok.inj h).symm
          subst hres
          have hcond' : matchesBytecode contents = true ∧ contents.length % 2 = 0 := by
            simp only [Bool.and_eq_true, beq_iff_eq] at hcond
            exact hcond
          refine ⟨?_, hlist, ?_,
            Or.inr (Or.inr ⟨haddr', hlit', hdir',
              ⟨contents, rfl, hcond'.1, hcond'.2, hbc'⟩, ?_, ?_⟩)⟩
          · rw [hbc']; exact hdec
          · rw [hda, hdir', hbc']
          · rw [hda]
          · rw [hda]
        · rw [disassemble_file_bad args w dir0 contents hb haddr' hlit' hfl hcond] at h
          exact Except.noConfusion h

/-- Unfolding `disassemble` when the base-directory phase fails. -/
theorem disassemble_err (args : DisassemblerArgs) (w : World) (e : Fatal)
    (hdir : baseDir args w = Except.error e) :
    disassemble args w = ⟨Except.error e, w.cache, [], 0⟩ := by
  unfold disassemble
  rw [hdir]

/-! ## Claim C6 -/

set_option maxRecDepth 10000 in
/-- **C6** (counterexample): the claim says an address target with an
empty endpoint aborts with a configuration error *regardless of the
state of the external cache*.  It does not: the source consults the
cache *before* checking the endpoint, so with a warm cache the
invocation succeeds (returning the cached bytecode) even though
`rpc_url` is empty. -/
theorem claim6_counterexample :
    ((disassemble
        ⟨"0xaaaaaaaaaaaaaaaaaaaaaaaaaaaaaaaaaaaaaaaa", "out", ""⟩
        ⟨some "/w",
         [("contract.0xaaaaaaaaaaaaaaaaaaaaaaaaaaaaaaaaaaaaaaaa", "6001", none)],
         [], fun _ _ => none, fun _ => false, fun _ => false⟩).outcome).toOption.map
      Res.bytecode = some "6001" := by
  decide

/-- **C6** (amended): when the cache holds *no* entry for the address,
an address-classified target with an empty endpoint aborts with the
missing-endpoint configuration error before any network access is
attempted (zero fetches), provided the base-directory phase itself
succeeds (an override is given or the working directory is
available). -/
theorem claim6_amended (args : DisassemblerArgs) (w : World)
    (haddr : matchesAddress args.target = true)
    (hmiss : w.cache.lookup ("contract." ++ args.target) = none)
    (hrpc : args.rpc_url = "")
    (hdir : args.output ≠ "" ∨ ∃ d, w.cwd = some d) :
    (disassemble args w).outcome = Except.error Fatal.missingRpc ∧
    (disassemble args w).fetches = 0 := by
  have hbase : ∃ dir0, baseDir args w = Except.ok dir0 := by
    rcases baseDir_cases args w with ⟨ho, ⟨d, hc, hb⟩ | ⟨hc, hb⟩⟩ | ⟨ho, hb⟩
    · exact ⟨_, hb⟩
    · rcases hdir with ho' | ⟨d, hd⟩
      · exact absurd ho ho'
      · rw [hd] at hc; exact Option.noConfusion hc
    · exact ⟨_, hb⟩
  obtain ⟨dir0, hb⟩ := hbase
  have hres : resolveAddressCode args w = ⟨Except.error Fatal.missingRpc, w.cache, 0⟩ := by
    unfold resolveAddressCode
    rw [hmiss, if_pos hrpc]
  rw [disassemble_addr args w dir0 hb haddr, hres]
  exact ⟨rfl, rfl⟩

/-- Witness for the amended C6: a cold cache, an empty endpoint, and an
address-shaped target produce the configuration error with zero
fetches. -/
theorem claim6_amended_witness :
    (disassemble ⟨"0xaaaaaaaaaaaaaaaaaaaaaaaaaaaaaaaaaaaaaaaa", "out", ""⟩
        ⟨some "/w", [], [], fun _ _ => none, fun _ => false,
         fun _ => false⟩).outcome = Except.error Fatal.missingRpc ∧
    (disassemble ⟨"0xaaaaaaaaaaaaaaaaaaaaaaaaaaaaaaaaaaaaaaaa", "out", ""⟩
        ⟨some "/w", [], [], fun _ _ => none, fun _ => false,
         fun _ => false⟩).fetches = 0 :=
  claim6_amended _ _ (by decide) (by decide) rfl (Or.inl (by decide))

/-! ## Claim C7 -/

set_option maxRecDepth 10000 in
/-- **C7** (counterexample): the claim says the address variant's
directory is always the base with `/<address>` appended.  But the
source appends the suffix only when `output_dir != args.output`, i.e.
only when *no* override was given: with override `"custom"` and an
address target (resolved from cache), the resolved output directory is
`"custom"`, not `"custom/<address>"`. -/
theorem claim7_counterexample :
    ((disassemble
        ⟨"0xaaaaaaaaaaaaaaaaaaaaaaaaaaaaaaaaaaaaaaaa", "custom", ""⟩
        ⟨some "/w",
         [("contract.0xaaaaaaaaaaaaaaaaaaaaaaaaaaaaaaaaaaaaaaaa", "6001", none)],
         [], fun _ _ => none, fun _ => false, fun _ => false⟩).outcome).toOption.map
      Res.outDir = some "custom" ∧
    ("custom" : String) ≠ "custom/" ++ "0xaaaaaaaaaaaaaaaaaaaaaaaaaaaaaaaaaaaaaaaa" := by
  exact ⟨by decide, by decide⟩

/-- **C7** (amended): when no override is given the base is
`<cwd>/output` and the variant suffixes are appended as claimed
(`/<address>` for addresses, nothing for literals, `/local` for
files); when an override is given it is used unmodified by *all three*
variants — the suffixes are appended only in the defaulted case. -/
theorem claim7_amended (args : DisassemblerArgs) (w : World) (res : Res)
    (h : (disassemble args w).outcome = Except.ok res) :
    (args.output = "" → ∃ d, w.cwd = some d ∧
       ((matchesAddress args.target = true ∧
           res.outDir = d ++ "/output" ++ "/" ++ args.target) ∨
        (matchesAddress args.target = false ∧ matchesBytecode args.target = true ∧
           res.outDir = d ++ "/output") ∨
        (matchesAddress args.target = false ∧ matchesBytecode args.target = false ∧
           res.outDir = d ++ "/output" ++ "/local"))) ∧
    (args.output ≠ "" → res.outDir = args.output) := by
  rcases baseDir_cases args w with ⟨ho, ⟨d, hc, hb⟩ | ⟨hc, hb⟩⟩ | ⟨ho, hb⟩
  · obtain ⟨-, -, -, hcases⟩ := disassemble_ok_inv args w res _ hb h
    constructor
    · intro _
      refine ⟨d, hc, ?_⟩
      have hne : (d ++ "/output") ≠ args.output := by
        rw [ho]; exact cwdDir_ne_empty d
      rcases hcases with ⟨ha, hdir, -⟩ | ⟨ha, hl, hdir, -⟩ | ⟨ha, hl, hdir, -⟩
      · exact Or.inl ⟨ha, by rw [hdir, if_pos hne]⟩
      · exact Or.inr (Or.inl ⟨ha, hl, hdir⟩)
      · exact Or.inr (Or.inr ⟨ha, hl, by rw [hdir, if_pos hne]⟩)
    · intro ho'
      exact absurd ho ho'
  · rw [disassemble_err args w _ hb] at h
    exact Except.noConfusion h
  · obtain ⟨-, -, -, hcases⟩ := disassemble_ok_inv args w res _ hb h
    constructor
    · intro ho'
      exact absurd ho' ho
    · intro _
      have hne : ¬ (args.output ≠ args.output) := fun hcon => hcon rfl
      rcases hcases with ⟨ha, hdir, -⟩ | ⟨ha, hl, hdir, -⟩ | ⟨ha, hl, hdir, -⟩
      · rw [hdir, if_neg hne]
      · exact hdir
      · rw [hdir, if_neg hne]

/-- Witness for the amended C7: the defaulted (no-override) case for a
literal target resolves the directory to `<cwd>/output`. -/
theorem claim7_amended_witness :
    ∃ d, (some "/w" : Option String) = some d ∧
      ((matchesAddress "" = true ∧ ("/w/output" : String) = d ++ "/output" ++ "/" ++ "") ∨
       (matchesAddress "" = false ∧ matchesBytecode "" = true ∧
          ("/w/output" : String) = d ++ "/output") ∨
       (matchesAddress "" = false ∧ matchesBytecode "" = false ∧
          ("/w/output" : String) = d ++ "/output" ++ "/local")) :=
  (claim7_amended ⟨"", "", ""⟩
      ⟨some "/w", [], [], fun _ _ => none, fun _ => false, fun _ => false⟩
      ⟨"", "/w/output", "", [], 0⟩ rfl).1 rfl

/-! ## Claim C9 -/

/-- **C9** (confirmed): classification is order-sensitive with the
address pattern checked first, then the literal-bytecode pattern, and
only otherwise the file path.  An address-shaped target never touches
the filesystem (the whole run is unchanged by any file state, even if
a file exists at that exact path), a bytecode-shaped non-address
target likewise bypasses the filesystem, and an address-shaped target
with a cached entry resolves to the cached bytecode — address
semantics — even when it also matches the bytecode pattern or names an
existing file. -/
theorem claim9_precedence (args : DisassemblerArgs) (w : World)
    (files' : List (String × String)) :
    (matchesAddress args.target = true →
       disassemble args w = disassemble args { w with files := files' }) ∧
    (matchesAddress args.target = false → matchesBytecode args.target = true →
       disassemble args w = disassemble args { w with files := files' }) ∧
    (matchesAddress args.target = true →
       ∀ v ttl, w.cache.lookup ("contract." ++ args.target) = some (v, ttl) →
         ∀ res, (disassemble args w).outcome = Except.ok res →
           res.bytecode = v) := by
  refine ⟨?_, ?_, ?_⟩
  · intro haddr
    cases hbd : baseDir args w with
    | error e =>
      have hbd' : baseDir args { w with files := files' } = Except.error e := hbd
      rw [disassemble_err args w e hbd, disassemble_err args _ e hbd']
    | ok dir0 =>
      have hbd' : baseDir args { w with files := files' } = Except.ok dir0 := hbd
      rw [disassemble_addr args w dir0 hbd haddr,
        disassemble_addr args { w with files := files' } dir0 hbd' haddr]
      have hsame : resolveAddressCode args { w with files := files' } =
          resolveAddressCode args w := rfl
      rw [hsame]
  · intro haddr hlit
    cases hbd : baseDir args w with
    | error e =>
      have hbd' : baseDir args { w with files := files' } = Except.error e := hbd
      rw [disassemble_err args w e hbd, disassemble_err args _ e hbd']
    | ok dir0 =>
      have hbd' : baseDir args { w with files := files' } = Except.ok dir0 := hbd
      rw [disassemble_lit args w dir0 hbd haddr hlit,
        disassemble_lit args { w with files := files' } dir0 hbd' haddr hlit]
  · intro haddr v ttl hl res h
    cases hbd : baseDir args w with
    | error e =>
      rw [disassemble_err args w e hbd] at h
      exact Except.noConfusion h
    | ok dir0 =>
      obtain ⟨-, -, -, hcases⟩ := disassemble_ok_inv args w res dir0 hbd h
      rcases hcases with ⟨-, -, hcode, -⟩ | ⟨ha, -⟩ | ⟨ha, -⟩
      · have hres : resolveAddressCode args w = ⟨Except.ok v, w.cache, 0⟩ := by
          unfold resolveAddressCode
          rw [hl]
        rw [hres] at hcode
        exact (Except.ok.inj hcode).symm
      · rw [haddr] at ha
        exact Bool.noConfusion ha
      · rw [haddr] at ha
        exact Bool.noConfusion ha

set_option maxRecDepth 10000 in
/-- Witness for C9: an address-shaped target (with a file present at
that exact path) ignores any change to the filesystem; a non-address
literal-bytecode target does too; and with a cache hit the resolved
bytecode is the cached value, not the file contents. -/
theorem claim9_precedence_witness :
    (disassemble ⟨"0xaaaaaaaaaaaaaaaaaaaaaaaaaaaaaaaaaaaaaaaa", "out", ""⟩
        ⟨some "/w",
         [("contract.0xaaaaaaaaaaaaaaaaaaaaaaaaaaaaaaaaaaaaaaaa", "6001", none)],
         [("0xaaaaaaaaaaaaaaaaaaaaaaaaaaaaaaaaaaaaaaaa", "deadbeef")],
         fun _ _ => none, fun _ => false, fun _ => false⟩ =
      disassemble ⟨"0xaaaaaaaaaaaaaaaaaaaaaaaaaaaaaaaaaaaaaaaa", "out", ""⟩
        { (⟨some "/w",
            [("contract.0xaaaaaaaaaaaaaaaaaaaaaaaaaaaaaaaaaaaaaaaa", "6001", none)],
            [("0xaaaaaaaaaaaaaaaaaaaaaaaaaaaaaaaaaaaaaaaa", "deadbeef")],
            fun _ _ => none, fun _ => false, fun _ => false⟩ : World) with
          files := [] }) ∧
    (disassemble ⟨"6001", "out", ""⟩
        ⟨some "/w", [], [("6001", "deadbeef")], fun _ _ => none, fun _ => false,
         fun _ => false⟩ =
      disassemble ⟨"6001", "out", ""⟩
        { (⟨some "/w", [], [("6001", "deadbeef")], fun _ _ => none, fun _ => false,
            fun _ => false⟩ : World) with files := [] }) ∧
    (Res.bytecode ⟨"1 PUSH1 01\n", "out", "6001", [⟨1, "PUSH1", "01"⟩], 2⟩ = "6001") :=
  ⟨(claim9_precedence _ _ _).1 (by decide),
   (claim9_precedence _ _ _).2.1 (by decide) (by decide),
   (claim9_precedence ⟨"0xaaaaaaaaaaaaaaaaaaaaaaaaaaaaaaaaaaaaaaaa", "out", ""⟩
       ⟨some "/w",
        [("contract.0xaaaaaaaaaaaaaaaaaaaaaaaaaaaaaaaaaaaaaaaa", "6001", none)],
        [("0xaaaaaaaaaaaaaaaaaaaaaaaaaaaaaaaaaaaaaaaa", "deadbeef")],
        fun _ _ => none, fun _ => false, fun _ => false⟩ []).2.2 (by decide)
     "6001" none (by decide) ⟨"1 PUSH1 01\n", "out", "6001", [⟨1, "PUSH1", "01"⟩], 2⟩
     rfl⟩

/-! ## Claim C10 -/

/-- **C10** (confirmed): an invocation whose resolved byte sequence is
empty still succeeds — the decode loop emits no instructions, the
final program counter is 0, the returned listing is the empty string,
and both artifact files are still written (both empty). -/
theorem claim10_empty_bytecode (args : DisassemblerArgs) (w : World) (res : Res)
    (h : (disassemble args w).outcome = Except.ok res)
    (hempty : res.bytecode = "") :
    res.instrs = [] ∧ res.finalPC = 0 ∧ res.listing = "" ∧
    (disassemble args w).writes =
      [(res.outDir ++ "/bytecode.evm", ""),
       (res.outDir ++ "/disassembled.asm", "")] := by
  cases hbd : baseDir args w with
  | error e =>
    rw [disassemble_err args w e hbd] at h
    exact Except.noConfusion h
  | ok dir0 =>
    obtain ⟨hdec, hlist, hwrites, -⟩ := disassemble_ok_inv args w res dir0 hbd h
    rw [hempty] at hdec
    have h0 : disassembleBytecode "" = some ([], 0) := rfl
    rw [h0] at hdec
    have hp := Option.some.inj hdec
    have hi : res.instrs = [] := (congrArg Prod.fst hp).symm
    have hf : res.finalPC = 0 := (congrArg Prod.snd hp).symm
    have hl0 : res.listing = "" := by
      rw [hlist, hi]
      rfl
    exact ⟨hi, hf, hl0, by rw [hwrites, hempty, hl0]⟩

/-- Witness for C10: an empty literal target resolves to the empty byte
sequence, and the run still writes both (empty) artifacts and returns
the empty listing. -/
theorem claim10_empty_bytecode_witness :
    ([] : List Instruction) = [] ∧ (0 : Nat) = 0 ∧ ("" : String) = "" ∧
    (disassemble ⟨"", "o", ""⟩
        ⟨some "/w", [], [], fun _ _ => none, fun _ => false,
         fun _ => false⟩).writes =
      [("o" ++ "/bytecode.evm", ""), ("o" ++ "/disassembled.asm", "")] :=
  claim10_empty_bytecode ⟨"", "o", ""⟩
    ⟨some "/w", [], [], fun _ _ => none, fun _ => false, fun _ => false⟩
    ⟨"", "o", "", [], 0⟩ rfl rfl

/-! ## Claim C8 -/

/-- The pipeline tail reports the fetch count it was handed. -/
theorem finishRun_fetches (dir bc : String) (cache : List CacheEntry) (n : Nat) :
    (finishRun dir bc cache n).fetches = n := by
  obtain ⟨res', hfin, -, -, -, -⟩ := finishRun_ok dir bc cache n
  rw [hfin]

/-- In the address branch, the invocation's fetch count is the
resolver's fetch count. -/
theorem disassemble_fetches_addr (args : DisassemblerArgs) (w : World)
    (dir0 : String) (hbd : baseDir args w = Except.ok dir0)
    (haddr : matchesAddress args.target = true) :
    (disassemble args w).fetches = (resolveAddressCode args w).fetches := by
  rw [disassemble_addr args w dir0 hbd haddr]
  cases hr : resolveAddressCode args w with
  | mk code cache' n =>
    cases code with
    | error e => rfl
    | ok bc =>
      exact finishRun_fetches
        (if dir0 ≠ args.output then dir0 ++ "/" ++ args.target else dir0) bc cache' n

/-- An address-classified invocation whose cache already holds the
target issues no network fetch at all. -/
theorem disassemble_hit_fetches (args : DisassemblerArgs) (w2 : World)
    (dir0 v : String) (ttl : Option Nat)
    (hbd : baseDir args w2 = Except.ok dir0)
    (haddr : matchesAddress args.target = true)
    (hl : w2.cache.lookup ("contract." ++ args.target) = some (v, ttl)) :
    (disassemble args w2).fetches = 0 := by
  have hres : resolveAddressCode args w2 = ⟨Except.ok v, w2.cache, 0⟩ := by
    unfold resolveAddressCode
    rw [hl]
  rw [disassemble_fetches_addr args w2 dir0 hbd haddr, hres]

/-- **C8** (confirmed): the address-variant cache protocol.  A cache
hit under `contract.<address>` is returned immediately with no network
fetch and no cache mutation; a miss that succeeds issues exactly one
fetch and stores the prefix-stripped bytecode under the same key with
no explicit expiry; and a successful invocation performs at most one
fetch, while rerunning the same invocation against the cache it left
behind performs none — so resolving the same cached address twice
issues at most one network fetch. -/
theorem claim8_cache_protocol (args : DisassemblerArgs) (w : World)
    (haddr : matchesAddress args.target = true) :
    (∀ v ttl, w.cache.lookup ("contract." ++ args.target) = some (v, ttl) →
       resolveAddressCode args w = ⟨Except.ok v, w.cache, 0⟩) ∧
    (w.cache.lookup ("contract." ++ args.target) = none →
       ∀ bc cache' n, resolveAddressCode args w = ⟨Except.ok bc, cache', n⟩ →
         n = 1 ∧ cache'.lookup ("contract." ++ args.target) = some (bc, none)) ∧
    (∀ res, (disassemble args w).outcome = Except.ok res →
       (disassemble args w).fetches ≤ 1 ∧
       (disassemble args { w with cache := (disassemble args w).cache }).fetches = 0) := by
  refine ⟨?_, ?_, ?_⟩
  · intro v ttl hl
    unfold resolveAddressCode
    rw [hl]
  · intro hmiss bc cache' n hres
    rcases resolveAddressCode_cases args w with
      ⟨v, ttl, hl, heq⟩ | ⟨-, hcase⟩
    · rw [hmiss] at hl
      exact Option.noConfusion hl
    · rcases hcase with ⟨-, heq⟩ | ⟨-, -, heq⟩ | ⟨-, -, -, heq⟩ |
        ⟨-, -, -, ⟨-, heq⟩ | ⟨bytes, hcc, heq⟩⟩
      · rw [heq] at hres
        injection hres with h1 h2 h3
        exact Except.noConfusion h1
      · rw [heq] at hres
        injection hres with h1 h2 h3
        exact Except.noConfusion h1
      · rw [heq] at hres
        injection hres with h1 h2 h3
        exact Except.noConfusion h1
      · rw [heq] at hres
        injection hres with h1 h2 h3
        exact Except.noConfusion h1
      · rw [heq] at hres
        injection hres with h1 h2 h3
        refine ⟨h3.symm, ?_⟩
        rw [← h2, ← Except.ok.inj h1]
        simp [List.lookup]
  · intro res h
    cases hbd : baseDir args w with
    | error e =>
      rw [disassemble_err args w e hbd] at h
      exact Except.noConfusion h
    | ok dir0 =>
      obtain ⟨-, -, -, hcases⟩ := disassemble_ok_inv args w res dir0 hbd h
      rcases hcases with ⟨-, -, hcode, hcache, hfetch⟩ | ⟨ha, -⟩ | ⟨ha, -⟩
      · constructor
        · rw [hfetch]
          exact resolveAddressCode_fetches_le args w
        · obtain ⟨ttl, hlk⟩ := resolveAddressCode_ok_lookup args w res.bytecode hcode
          have hlk2 : (disassemble args w).cache.lookup ("contract." ++ args.target) =
              some (res.bytecode, ttl) := by
            rw [hcache]
            exact hlk
          exact disassemble_hit_fetches args
            { w with cache := (disassemble args w).cache } dir0 res.bytecode ttl
            hbd haddr hlk2
      · rw [haddr] at ha
        exact Bool.noConfusion ha
      · rw [haddr] at ha
        exact Bool.noConfusion ha

set_option maxRecDepth 10000 in
/-- Witness for C8: a concrete cache hit (returned with zero fetches),
a concrete miss-then-fetch (stored under the key with no expiry, one
fetch), and a concrete successful run followed by a rerun against the
resulting cache (zero fetches the second time). -/
theorem claim8_cache_protocol_witness :
    (resolveAddressCode ⟨"0xaaaaaaaaaaaaaaaaaaaaaaaaaaaaaaaaaaaaaaaa", "out", ""⟩
        ⟨some "/w",
         [("contract.0xaaaaaaaaaaaaaaaaaaaaaaaaaaaaaaaaaaaaaaaa", "6001", none)],
         [], fun _ _ => none, fun _ => false, fun _ => false⟩ =
      ⟨Except.ok "6001",
       [("contract.0xaaaaaaaaaaaaaaaaaaaaaaaaaaaaaaaaaaaaaaaa", "6001", none)], 0⟩) ∧
    ((1 : Nat) = 1 ∧
      ([("contract.0xaaaaaaaaaaaaaaaaaaaaaaaaaaaaaaaaaaaaaaaa",
          "6001", none)] : List CacheEntry).lookup
        ("contract." ++ "0xaaaaaaaaaaaaaaaaaaaaaaaaaaaaaaaaaaaaaaaa") =
        some ("6001", none)) ∧
    ((disassemble ⟨"0xaaaaaaaaaaaaaaaaaaaaaaaaaaaaaaaaaaaaaaaa", "out", ""⟩
        ⟨some "/w",
         [("contract.0xaaaaaaaaaaaaaaaaaaaaaaaaaaaaaaaaaaaaaaaa", "6001", none)],
         [], fun _ _ => none, fun _ => false, fun _ => false⟩).fetches ≤ 1 ∧
     (disassemble ⟨"0xaaaaaaaaaaaaaaaaaaaaaaaaaaaaaaaaaaaaaaaa", "out", ""⟩
        { (⟨some "/w",
            [("contract.0xaaaaaaaaaaaaaaaaaaaaaaaaaaaaaaaaaaaaaaaa", "6001", none)],
            [], fun _ _ => none, fun _ => false, fun _ => false⟩ : World) with
          cache :=
            (disassemble ⟨"0xaaaaaaaaaaaaaaaaaaaaaaaaaaaaaaaaaaaaaaaa", "out", ""⟩
              ⟨some "/w",
               [("contract.0xaaaaaaaaaaaaaaaaaaaaaaaaaaaaaaaaaaaaaaaa", "6001", none)],
               [], fun _ _ => none, fun _ => false,
               fun _ => false⟩).cache }).fetches = 0) :=
  ⟨(claim8_cache_protocol _ _ (by decide)).1 "6001" none (by decide),
   (claim8_cache_protocol ⟨"0xaaaaaaaaaaaaaaaaaaaaaaaaaaaaaaaaaaaaaaaa", "x", "http"⟩
       ⟨some "/w", [], [], fun _ _ => some [0x60, 0x01], fun _ => true,
        fun _ => true⟩ (by decide)).2.1 (by decide) "6001"
     [("contract.0xaaaaaaaaaaaaaaaaaaaaaaaaaaaaaaaaaaaaaaaa", "6001", none)] 1 rfl,
   (claim8_cache_protocol _ _ (by decide)).2.2
     ⟨"1 PUSH1 01\n", "out", "6001", [⟨1, "PUSH1", "01"⟩], 2⟩ rfl⟩

/-! ## Character-level facts for the normalization claim -/

/-- Appending strings appends their character lists. -/
theorem toList_append (s t : String) : (s ++ t).toList = s.toList ++ t.toList := rfl

/-- Rebuilding a string from its character list is the identity. -/
theorem mk_toList (s : String) : String.mk s.toList = s := rfl

/-- Stripping the first `0x` from a string that begins with one drops
exactly those two characters. -/
theorem drop0xL_cons2 (rest : List Char) : drop0xL ('0' :: 'x' :: rest) = rest := by
  simp [drop0xL]

/-- A string of pure hex digits contains no `0x` occurrence, so the
strip is the identity on it. -/
theorem allHex_drop0xL : ∀ l : List Char, l.all isHexDigit = true → drop0xL l = l := by
  intro l
  induction l with
  | nil => intro _; rfl
  | cons c1 tail ih =>
    cases tail with
    | nil => intro _; rfl
    | cons c2 rest =>
      intro h
      rw [List.all_cons, Bool.and_eq_true] at h
      have hcond : ¬ (c1 = '0' && c2 = 'x') = true := by
        intro hc
        simp only [Bool.and_eq_true, decide_eq_true_eq] at hc
        have h2 : isHexDigit c2 = true := by
          have htl := h.2
          rw [List.all_cons, Bool.and_eq_true] at htl
          exact htl.1
        rw [hc.2] at h2
        exact absurd h2 (by decide)
      rw [drop0xL, if_neg hcond, ih h.2]

/-- A string of pure hex digits cannot begin with `0x` (`x` is not a
hex digit). -/
theorem has0xL_false_of_allHex (l : List Char) (h : l.all isHexDigit = true) :
    has0xL l = false := by
  unfold has0xL
  split
  · simp [List.all_cons, isHexDigit, hexVal] at h
  · rfl

/-- The hex rendering of a nibble is a hex digit. -/
theorem hexDigitChar_hex (n : Nat) : isHexDigit (hexDigitChar n) = true := by
  unfold hexDigitChar
  split <;> decide

/-- The hex rendering of a byte list is all hex digits. -/
theorem joinAll_allHex (bytes : List Nat) :
    (joinAll (bytes.map byteHex)).toList.all isHexDigit = true := by
  induction bytes with
  | nil => rfl
  | cons b rest ih =>
    show ((byteHex b ++ joinAll (rest.map byteHex)).toList.all isHexDigit) = true
    rw [toList_append, List.all_append]
    simp only [Bool.and_eq_true]
    exact ⟨by simp [byteHex, List.all_cons, hexDigitChar_hex], ih⟩

/-- The hex rendering of a byte list has two characters per byte. -/
theorem joinAll_byteHex_length (bytes : List Nat) :
    (joinAll (bytes.map byteHex)).length = 2 * bytes.length := by
  rw [joinAll_length, sum_lengths_two]
  · rw [List.length_map]
  · intro s hs
    rcases List.mem_map.mp hs with ⟨b, -, rfl⟩
    rfl

/-- What the address variant stores and returns after a fetch: the
`0x`-prefixed rendering with its first (leading) `0x` stripped, i.e.
the bare hex-digit body. -/
theorem fetch_bytecode (bytes : List Nat) :
    drop0xFirst (bytesToHexStr bytes) = joinAll (bytes.map byteHex) := by
  show String.mk (drop0xL (("0x" ++ joinAll (bytes.map byteHex)).toList)) = _
  rw [toList_append]
  show String.mk (drop0xL ('0' :: 'x' :: (joinAll (bytes.map byteHex)).toList)) = _
  rw [drop0xL_cons2]
  exact mk_toList _

/-- A successful association-list lookup locates an actual entry. -/
theorem lookup_mem {α β : Type} [BEq α] [LawfulBEq α] :
    ∀ (l : List (α × β)) (a : α) (b : β), l.lookup a = some b → (a, b) ∈ l := by
  intro l
  induction l with
  | nil => intro a b h; exact Option.noConfusion h
  | cons p rest ih =>
    intro a b h
    rcases p with ⟨k, v⟩
    rw [List.lookup] at h
    cases hbeq : a == k
    · rw [hbeq] at h
      exact List.mem_cons_of_mem _ (ih a b h)
    · rw [hbeq] at h
      have hk : a = k := eq_of_beq hbeq
      have hv : v = b := Option.some.inj h
      rw [hk, ← hv]
      exact List.mem_cons_self _ _

/-- Decomposition of the bytecode-shape pattern: either an explicit
`0x` prefix followed by an even run of hex digits, or a bare even run
of hex digits. -/
theorem matchesBytecodeL_cases (l : List Char) (h : matchesBytecodeL l = true) :
    (∃ rest, l = '0' :: 'x' :: rest ∧ rest.all isHexDigit = true ∧
       rest.length % 2 = 0) ∨
    (l.all isHexDigit = true ∧ l.length % 2 = 0) := by
  unfold matchesBytecodeL at h
  split at h
  · rename_i rest
    simp only [Bool.and_eq_true, beq_iff_eq] at h
    exact Or.inl ⟨rest, rfl, h.1, h.2⟩
  · simp only [Bool.and_eq_true, beq_iff_eq] at h
    exact Or.inr h

/-! ## Claim C5 -/

set_option maxRecDepth 10000 in
/-- **C5** (counterexample): the claim says the byte sequence handed to
the decoder never carries a `0x`-style prefix.  But the literal branch
uses the target verbatim with no stripping, and the bytecode pattern
admits an optional prefix, so the prefixed literal `"0x6001600201"`
reaches the decoder prefix and all. -/
theorem claim5_counterexample :
    ((disassemble ⟨"0x6001600201", "out", ""⟩
        ⟨some "/w", [], [], fun _ _ => none, fun _ => false,
         fun _ => false⟩).outcome).toOption.map
      (fun r => (r.bytecode, has0xL r.bytecode.toList)) =
      some ("0x6001600201", true) := by
  decide

/-- **C5** (amended): provided every cached value is itself normalized
(even length, no leading `0x`), the resolved byte sequence always has
even length, and it carries no leading `0x` prefix *except* in the
literal path, where a prefixed literal target is used verbatim,
prefix included. -/
theorem claim5_amended (args : DisassemblerArgs) (w : World) (res : Res)
    (hcache : ∀ k v ttl, (k, v, ttl) ∈ w.cache →
       v.length % 2 = 0 ∧ has0xL v.toList = false)
    (h : (disassemble args w).outcome = Except.ok res) :
    res.bytecode.length % 2 = 0 ∧
    (has0xL res.bytecode.toList = false ∨
     (res.bytecode = args.target ∧ matchesBytecode args.target = true)) := by
  cases hbd : baseDir args w with
  | error e =>
    rw [disassemble_err args w e hbd] at h
    exact Except.noConfusion h
  | ok dir0 =>
    obtain ⟨-, -, -, hcases⟩ := disassemble_ok_inv args w res dir0 hbd h
    rcases hcases with ⟨-, -, hcode, -⟩ | ⟨-, hlit, -, hbc, -⟩ |
      ⟨-, -, -, ⟨contents, hfl, hmb, hceven, hbc⟩, -⟩
    · -- address variant: cached value or freshly fetched and stripped
      rcases resolveAddressCode_cases args w with ⟨v, ttl, hl, heq⟩ | ⟨-, hcase⟩
      · rw [heq] at hcode
        have hv : res.bytecode = v := (Except.ok.inj hcode).symm
        have hmem : ("contract." ++ args.target, v, ttl) ∈ w.cache :=
          lookup_mem w.cache _ (v, ttl) hl
        obtain ⟨he, hp⟩ := hcache _ v ttl hmem
        rw [hv]
        exact ⟨he, Or.inl hp⟩
      · rcases hcase with ⟨-, heq⟩ | ⟨-, -, heq⟩ | ⟨-, -, -, heq⟩ |
          ⟨-, -, -, ⟨-, heq⟩ | ⟨bytes, -, heq⟩⟩
        · rw [heq] at hcode; exact Except.noConfusion hcode
        · rw [heq] at hcode; exact Except.noConfusion hcode
        · rw [heq] at hcode; exact Except.noConfusion hcode
        · rw [heq] at hcode; exact Except.noConfusion hcode
        · rw [heq] at hcode
          have hv : res.bytecode = drop0xFirst (bytesToHexStr bytes) :=
            (Except.ok.inj hcode).symm
          rw [hv, fetch_bytecode]
          refine ⟨?_, Or.inl ?_⟩
          · rw [joinAll_byteHex_length]; omega
          · exact has0xL_false_of_allHex _ (joinAll_allHex bytes)
    · -- literal variant: used verbatim
      have heven : args.target.length % 2 = 0 := by
        rcases matchesBytecodeL_cases args.target.toList hlit with
          ⟨rest, hleq, -, hre⟩ | ⟨-, he⟩
        · have hlen := congrArg List.length hleq
          simp only [List.length_cons] at hlen
          have : args.target.toList.length = args.target.length := rfl
          omega
        · exact he
      rw [hbc]
      exact ⟨heven, Or.inr ⟨rfl, hlit⟩⟩
    · -- file variant: shape-checked contents, first 0x stripped
      rcases matchesBytecodeL_cases contents.toList hmb with
        ⟨rest, hleq, hallr, hre⟩ | ⟨hall, -⟩
      · have hby : res.bytecode = String.mk rest := by
          rw [hbc]
          show String.mk (drop0xL contents.toList) = _
          rw [hleq, drop0xL_cons2]
        rw [hby]
        exact ⟨hre, Or.inl (has0xL_false_of_allHex rest hallr)⟩
      · have hby : res.bytecode = contents := by
          rw [hbc]
          show String.mk (drop0xL contents.toList) = _
          rw [allHex_drop0xL _ hall]
          exact mk_toList _
        rw [hby]
        exact ⟨hceven, Or.inl (has0xL_false_of_allHex _ hall)⟩

/-- Witness for the amended C5: the empty literal target resolves to
the empty (even-length, prefix-free) byte sequence. -/
theorem claim5_amended_witness :
    ("" : String).length % 2 = 0 ∧
    (has0xL ("" : String).toList = false ∨
     (("" : String) = "" ∧ matchesBytecode "" = true)) :=
  claim5_amended ⟨"", "o", ""⟩
    ⟨some "/w", [], [], fun _ _ => none, fun _ => false, fun _ => false⟩
    ⟨"", "o", "", [], 0⟩
    (fun k v ttl hmem => absurd hmem (List.not_mem_nil _)) rfl

end Heimdall
